import Mathlib

set_option maxRecDepth 4000

/-!
Shallow embedding of scripts/translate_rss.py: the fetch, extract,
translate, cache, assemble pipeline. External collaborators (HTTP via
requests, HTML parsing via BeautifulSoup, date parsing via dateutil, the
OpenAI backend, and the hashlib.sha1 digest, all of them library code
outside this repository) are modelled as components of an explicit
environment record; everything else follows the script line by line.
Python strings are modelled as Lean strings (sequences of code points);
the float index computations int(max_chars * 0.7) and int(max_chars * 0.3)
are modelled as the natural-number floors 7 * max_chars / 10 and
3 * max_chars / 10, which agree with the script at the default budget
12000 and at every concrete input used below.
-/

-- ## Python string primitives

/-- Python str.strip with the ASCII whitespace subset (enough for every
input considered here). -/
def pystrip (s : String) : String :=
  String.mk (((s.data.dropWhile Char.isWhitespace).reverse.dropWhile Char.isWhitespace).reverse)

/-- Python slice s[:n]. -/
def pytake (n : Nat) (s : String) : String :=
  String.mk (s.data.take n)

/-- Python slice s[-k:], including the k = 0 edge case in which s[-0:]
means s[0:], that is, all of s. -/
def pytail (k : Nat) (s : String) : String :=
  if k = 0 then s else String.mk (s.data.drop (s.data.length - k))

-- ## truncate_for_translation (translate_rss.py lines 138-145)

/-- The string the script splices between the head and tail slices. -/
def TRUNC_DIVIDER : String := "\n\n[...TRUNCATED...]\n\n"

/-- Line-by-line model of truncate_for_translation: strip first, return
the stripped text when it fits, otherwise head slice, divider, tail
slice of the stripped text. -/
def truncate_for_translation (text : String) (max_chars : Nat) : String :=
  let t := pystrip text
  if t.length ≤ max_chars then t
  else pytake (7 * max_chars / 10) t ++ TRUNC_DIVIDER ++ pytail (3 * max_chars / 10) t

/-- The original-language snippet built in main (line 296):
source_text[:600] + "..." when the source exceeds 600 characters. -/
def orig_snip (s : String) : String :=
  if 600 < s.length then pytake 600 s ++ "..." else s

/-- The esc helper of build_rss (line 200): escape the three XML
reserved characters. -/
def esc (s : String) : String :=
  ((s.replace "&" "&amp;").replace "<" "&lt;").replace ">" "&gt;"

-- ## Data model

/-- One row of the translated_cache table (load_db, lines 52-61). -/
structure CacheRow where
  key : String
  created_at : String
  translator : String
  target_lang : String
  source_len : Nat
  translated : String
  deriving DecidableEq

/-- One row of the seen_items table (load_db, lines 62-67). -/
structure SeenRow where
  item_id : String
  first_seen : String
  deriving DecidableEq

/-- The sqlite store: both tables created by load_db. -/
structure DB where
  translated_cache : List CacheRow
  seen_items : List SeenRow
  deriving DecidableEq

/-- A parsed feed entry as the script reads it. The script collapses a
missing attribute and an empty one (getattr(e, f, "") or ""), so every
field is a plain string with "" meaning absent. -/
structure Entry where
  id : String
  link : String
  title : String
  summary : String
  description : String
  published : String
  updated : String
  deriving DecidableEq

/-- The dictionary appended to out_items in main (lines 300-306). -/
structure OutputItem where
  title : String
  link : String
  guid : String
  pubDate : String
  description : String
  deriving DecidableEq

/-- Outcome of one HTTP GET as observed through the requests library:
either an exception (connection error, timeout) or a status code with a
decoded body. -/
inductive HttpOutcome where
  | err : HttpOutcome
  | ok (status : Nat) (body : String) : HttpOutcome

/-- The observable external actions performed while processing one
entry: an outbound fetch, a text extraction, a translation call. -/
inductive Effect where
  | fetched (url : String)
  | extracted
  | translated (text lang : String)
  deriving DecidableEq

/-- The external collaborators of the script, all library code outside
this repository: hash is hashlib.sha1 hexdigest over the UTF-8 bytes,
http is requests.get, extract is the BeautifulSoup body of
extract_main_text, stripHtml is BeautifulSoup(...).get_text for the
summary fallback, parseDate is dateutil parse plus strftime (none on
exception), translate is the backend call. Fixing one Env fixes the
unchanged external inputs of a run. -/
structure Env where
  hash : String → String
  http : String → HttpOutcome
  extract : String → String
  stripHtml : String → String
  parseDate : String → Option String
  translate : String → String → String

-- ## Store operations (translate_rss.py lines 71-88)

/-- cache_get: SELECT translated FROM translated_cache WHERE key=?. -/
def cache_get (db : DB) (key : String) : Option String :=
  (db.translated_cache.find? (fun r => r.key == key)).map (fun r => r.translated)

/-- cache_put: INSERT OR REPLACE keyed by the primary key. -/
def cache_put (db : DB) (key translator target_lang source_text translated now : String) : DB :=
  ⟨⟨key, now, translator, target_lang, source_text.length, translated⟩ ::
      db.translated_cache.filter (fun r => r.key != key),
    db.seen_items⟩

/-- is_seen: SELECT 1 FROM seen_items WHERE item_id=?. -/
def is_seen (db : DB) (item_id : String) : Bool :=
  db.seen_items.any (fun r => r.item_id == item_id)

/-- mark_seen: INSERT OR IGNORE, never overwriting first_seen. -/
def mark_seen (db : DB) (item_id now : String) : DB :=
  if is_seen db item_id then db
  else ⟨db.translated_cache, ⟨item_id, now⟩ :: db.seen_items⟩

-- ## Fetcher (lines 110-118) and per-entry derived data (lines 254-298)

/-- fetch_url: None on any requests exception and on status codes at or
above 400, otherwise the decoded body. -/
def fetch_url (env : Env) (url : String) (timeout : Nat) : Option String :=
  match env.http url with
  | HttpOutcome.err => none
  | HttpOutcome.ok status body => if 400 ≤ status then none else some body

/-- The best-effort article fetch of main (lines 274-279) together with
the external actions it performs: fetch only when the link is nonempty,
extract only when the fetched html is truthy. -/
def fetchPhase (env : Env) (timeout : Nat) (e : Entry) : String × List Effect :=
  if e.link = "" then ("", [])
  else
    match fetch_url env e.link timeout with
    | some html =>
        if html = "" then ("", [Effect.fetched e.link])
        else (env.extract html, [Effect.fetched e.link, Effect.extracted])
    | none => ("", [Effect.fetched e.link])

/-- The entry identity of main (line 256):
sha1((e.id or "") + link + (e.title or "")). -/
def entry_identity (env : Env) (e : Entry) : String :=
  env.hash (e.id ++ e.link ++ e.title)

/-- getattr(e, "summary", "") or getattr(e, "description", "") or "". -/
def raw_summary (e : Entry) : String :=
  if e.summary = "" then e.description else e.summary

/-- The pubDate resolution of main (lines 262-272): published first,
else updated, empty string on parse failure. -/
def entry_pub (env : Env) (e : Entry) : String :=
  match (if e.published = ""
         then (if e.updated = "" then none else env.parseDate e.updated)
         else env.parseDate e.published) with
  | some s => s
  | none => ""

/-- The source text chosen for translation (main, lines 282-284): the
stripped article text when it has at least 400 characters, else the
stripped summary, then truncated to the budget. -/
def entry_source (env : Env) (timeout mc : Nat) (e : Entry) : String :=
  let article := (fetchPhase env timeout e).1
  let s0 := if 400 ≤ (pystrip article).length then pystrip article
            else env.stripHtml (raw_summary e)
  truncate_for_translation s0 mc

/-- The cache key shape of main (line 285):
sha1(translator_name + ":" + target_lang + ":" + source_text). -/
def cache_key (h : String → String) (backend target_lang source_text : String) : String :=
  h (backend ++ ":" ++ target_lang ++ ":" ++ source_text)

/-- The cache key main computes for one entry. -/
def entry_key (env : Env) (tn tl : String) (timeout mc : Nat) (e : Entry) : String :=
  cache_key env.hash tn tl (entry_source env timeout mc e)

/-- The description assembled in main (lines 296-298): translated block,
divider, bounded original snippet, with newlines turned into br tags. -/
def item_desc (source_text translated : String) : String :=
  "<p><b>Translated:</b></p><p>" ++ translated.replace "\n" "<br/>" ++ "</p>" ++
    "<hr/><p><b>Original snippet:</b></p><p>" ++
    (orig_snip source_text).replace "\n" "<br/>" ++ "</p>"

/-- The out_items element of main (lines 300-306). -/
def mkItem (env : Env) (tl : String) (e : Entry) (pub st tr : String) : OutputItem :=
  ⟨"[" ++ tl.toUpper ++ "] " ++ e.title, e.link, entry_identity env e, pub, item_desc st tr⟩

-- ## The per-entry step and per-feed loop of main (lines 254-307)

/-- Result of processing one entry: the updated store, the produced
item if any, and the external actions taken. -/
structure StepOut where
  db : DB
  item : Option OutputItem
  fx : List Effect
  deriving DecidableEq

/-- The cache-miss branch of main (lines 288-292): call the backend,
substitute the source text when the backend answer is falsy, upsert the
cache, build the item, mark the identity seen. -/
def processMiss (env : Env) (tn tl : String) (timeout mc : Nat) (now : String) (db : DB) (e : Entry) : StepOut :=
  let st := entry_source env timeout mc e
  let t0 := env.translate st tl
  let t1 := if t0 = "" then st else t0
  ⟨mark_seen (cache_put db (entry_key env tn tl timeout mc e) tn tl st t1 now)
      (entry_identity env e) now,
    some (mkItem env tl e (entry_pub env e) st t1),
    (fetchPhase env timeout e).2 ++ [Effect.translated st tl]⟩

/-- One iteration of the entry loop of main: skip a seen identity
entirely, serve a truthy cached translation from the cache, otherwise
take the miss branch (a cached empty string is falsy in Python, hence a
miss). -/
def processEntry (env : Env) (tn tl : String) (timeout mc : Nat) (now : String) (db : DB) (e : Entry) : StepOut :=
  if is_seen db (entry_identity env e) then ⟨db, none, []⟩
  else
    match cache_get db (entry_key env tn tl timeout mc e) with
    | some t =>
        if t = "" then processMiss env tn tl timeout mc now db e
        else ⟨mark_seen db (entry_identity env e) now,
              some (mkItem env tl e (entry_pub env e) (entry_source env timeout mc e) t),
              (fetchPhase env timeout e).2⟩
    | none => processMiss env tn tl timeout mc now db e

/-- Result of one feed pass: final store, out_items in order, external
actions in order. -/
structure RunOut where
  db : DB
  items : List OutputItem
  fx : List Effect
  deriving DecidableEq

/-- The entry loop of main over the (already capped) entry list of one
feed, threading the persistent store. -/
def runFeed (env : Env) (tn tl : String) (timeout mc : Nat) (now : String) : DB → List Entry → RunOut
  | db, [] => ⟨db, [], []⟩
  | db, e :: es =>
    let s := processEntry env tn tl timeout mc now db e
    let r := runFeed env tn tl timeout mc now s.db es
    ⟨r.db, (match s.item with | some it => it :: r.items | none => r.items), s.fx ++ r.fx⟩

-- ## build_rss (lines 198-223)

/-- The per-item block appended inside the loop of build_rss, pubDate
emitted only when truthy, description wrapped in CDATA unescaped. -/
def item_lines (it : OutputItem) : List String :=
  ["<item>",
   "<title>" ++ esc it.title ++ "</title>",
   "<link>" ++ esc it.link ++ "</link>",
   "<guid isPermaLink=\"false\">" ++ esc it.guid ++ "</guid>"]
  ++ (if it.pubDate = "" then [] else ["<pubDate>" ++ esc it.pubDate ++ "</pubDate>"])
  ++ ["<description><![CDATA[" ++ it.description ++ "]]></description>", "</item>"]

/-- The channel-level lines emitted before the item loop; now stands for
the generation timestamp string. -/
def rss_header (now feed_title : String) : List String :=
  ["<?xml version=\"1.0\" encoding=\"UTF-8\"?>",
   "<rss version=\"2.0\">",
   "<channel>",
   "<title>" ++ esc feed_title ++ "</title>",
   "<link></link>",
   "<description>" ++ esc feed_title ++ "</description>",
   "<lastBuildDate>" ++ now ++ "</lastBuildDate>"]

/-- build_rss: accumulate lines imperatively, then join with newlines. -/
def build_rss (now feed_title : String) (items : List OutputItem) : String :=
  String.intercalate "\n"
    ((items.foldl (fun acc it => acc ++ item_lines it) (rss_header now feed_title))
      ++ ["</channel></rss>"])

-- ## Effect counting

/-- Number of translation-backend calls for a given (text, lang) pair in
an effect trace; the backend name is fixed per run, so a (text, lang)
pair determines the triple of the spec. -/
def transCalls (t l : String) : List Effect → Nat
  | [] => 0
  | Effect.translated t2 l2 :: fx => (if t2 = t ∧ l2 = l then 1 else 0) + transCalls t l fx
  | _ :: fx => transCalls t l fx

/-- The cache slot of a key holds a truthy (non-empty) translation. -/
def cacheHasNonempty (db : DB) (k : String) : Prop :=
  ∃ v, cache_get db k = some v ∧ v ≠ ""

-- ## Concrete fixtures used by witnesses and counterexamples

/-- A fresh store, as load_db creates on first run. -/
def dbEmpty : DB := ⟨[], []⟩

/-- A concrete environment: identity hash, failing network, identity
extractors, failing date parser, backend answering the empty string. -/
def envW : Env :=
  ⟨fun s => s, fun _ => HttpOutcome.err, fun s => s, fun s => s, fun _ => none, fun _ _ => ""⟩

/-- Like envW but with a backend that answers "T". -/
def envT : Env :=
  ⟨fun s => s, fun _ => HttpOutcome.err, fun s => s, fun s => s, fun _ => none, fun _ _ => "T"⟩

def eW : Entry := ⟨"1", "", "t", "hola", "", "", ""⟩

def eW2 : Entry := ⟨"2", "", "t", "hola", "", "", ""⟩

def eColl1 : Entry := ⟨"a", "bc", "d", "", "", "", ""⟩

def eColl2 : Entry := ⟨"ab", "c", "d", "", "", "", ""⟩

def eEmpty1 : Entry := ⟨"1", "", "", "", "", "", ""⟩

def eEmpty2 : Entry := ⟨"2", "", "", "", "", "", ""⟩

def eLong : Entry := ⟨"L", "", "t", String.mk (List.replicate 601 'a'), "", "", ""⟩

/-- A store whose cache already holds an empty-string translation under
the key the empty source text produces with envT. -/
def db10 : DB := ⟨[⟨"openai:en:", "t0", "openai", "en", 0, ""⟩], []⟩

-- ## Generic facts about the string primitives

theorem pytake_length (n : Nat) (s : String) (h : n ≤ s.length) :
    (pytake n s).length = n := by
  have hx : (pytake n s).length = (s.data.take n).length := rfl
  have hy : s.length = s.data.length := rfl
  rw [hx, List.length_take]
  omega

theorem pytail_length (k : Nat) (s : String) (h0 : k ≠ 0) (h : k ≤ s.length) :
    (pytail k s).length = k := by
  unfold pytail
  rw [if_neg h0]
  have hx : (String.mk (s.data.drop (s.data.length - k))).length
      = (s.data.drop (s.data.length - k)).length := rfl
  have hy : s.length = s.data.length := rfl
  rw [hx, List.length_drop]
  omega

theorem key_preimage_lang_inj (b t l1 l2 : String)
    (hh : b ++ ":" ++ l1 ++ ":" ++ t = b ++ ":" ++ l2 ++ ":" ++ t) : l1 = l2 := by
  have hd := congrArg String.data hh
  simp only [String.data_append, List.append_assoc] at hd
  have h1 := List.append_cancel_left hd
  have h2 := List.append_cancel_left h1
  exact String.ext (List.append_cancel_right h2)

-- ## Store laws

theorem cache_get_put_self (db : DB) (k tn tl st t now : String) :
    cache_get (cache_put db k tn tl st t now) k = some t := by
  simp [cache_get, cache_put, List.find?_cons_of_pos]

theorem find?_key_filter (k k2 : String) (h : k2 ≠ k) (l : List CacheRow) :
    List.find? (fun r => r.key == k2) (l.filter (fun r => r.key != k))
      = List.find? (fun r => r.key == k2) l := by
  induction l with
  | nil => rfl
  | cons r l ih =>
    rw [List.filter_cons]
    by_cases hr : r.key = k
    · have hf : (r.key != k) = false := by simp [hr]
      have hb : (r.key == k2) = false := by
        rw [hr]
        exact beq_eq_false_iff_ne.mpr (fun hc => h hc.symm)
      rw [hf]
      simp only [Bool.false_eq_true, if_false]
      rw [List.find?_cons]
      simp only [hb]
      exact ih
    · have hf : (r.key != k) = true := by simp [hr]
      rw [hf]
      simp only [if_true]
      rw [List.find?_cons, List.find?_cons]
      by_cases hr2 : r.key = k2
      · have hb : (r.key == k2) = true := by simp [hr2]
        simp only [hb]
      · have hb : (r.key == k2) = false := by simp [hr2]
        simp only [hb]
        exact ih

theorem cache_get_put_ne (db : DB) (k k2 tn tl st t now : String) (h : k2 ≠ k) :
    cache_get (cache_put db k tn tl st t now) k2 = cache_get db k2 := by
  have hne : (k == k2) = false := by
    simp only [beq_eq_false_iff_ne]
    exact fun hcon => h hcon.symm
  simp [cache_get, cache_put, List.find?_cons, hne, find?_key_filter k k2 h]

theorem cache_get_mark_seen (db : DB) (i now k : String) :
    cache_get (mark_seen db i now) k = cache_get db k := by
  unfold mark_seen
  split
  · rfl
  · rfl

theorem is_seen_cache_put (db : DB) (k tn tl st t now x : String) :
    is_seen (cache_put db k tn tl st t now) x = is_seen db x := rfl

theorem is_seen_mark_seen_self (db : DB) (i now : String) :
    is_seen (mark_seen db i now) i = true := by
  unfold mark_seen
  by_cases h : is_seen db i
  · rw [if_pos h]
    exact h
  · rw [if_neg h]
    simp [is_seen, List.any_cons]

theorem is_seen_mark_seen_mono (db : DB) (i now x : String) (h : is_seen db x = true) :
    is_seen (mark_seen db i now) x = true := by
  unfold mark_seen
  split
  · exact h
  · simp only [is_seen, List.any_cons] at h ⊢
    simp [h]

-- ## Branch views of the per-entry step

theorem pe_skip (env : Env) (tn tl : String) (timeout mc : Nat) (now : String) (db : DB) (e : Entry)
    (h : is_seen db (entry_identity env e) = true) :
    processEntry env tn tl timeout mc now db e = ⟨db, none, []⟩ := by
  simp [processEntry, h]

theorem pe_hit (env : Env) (tn tl : String) (timeout mc : Nat) (now : String) (db : DB) (e : Entry)
    (t : String)
    (h1 : is_seen db (entry_identity env e) = false)
    (h2 : cache_get db (entry_key env tn tl timeout mc e) = some t)
    (h3 : t ≠ "") :
    processEntry env tn tl timeout mc now db e =
      ⟨mark_seen db (entry_identity env e) now,
       some (mkItem env tl e (entry_pub env e) (entry_source env timeout mc e) t),
       (fetchPhase env timeout e).2⟩ := by
  simp [processEntry, h1, h2, h3]

theorem pe_missN (env : Env) (tn tl : String) (timeout mc : Nat) (now : String) (db : DB) (e : Entry)
    (h1 : is_seen db (entry_identity env e) = false)
    (h2 : cache_get db (entry_key env tn tl timeout mc e) = none) :
    processEntry env tn tl timeout mc now db e = processMiss env tn tl timeout mc now db e := by
  simp [processEntry, h1, h2]

theorem pe_missE (env : Env) (tn tl : String) (timeout mc : Nat) (now : String) (db : DB) (e : Entry)
    (h1 : is_seen db (entry_identity env e) = false)
    (h2 : cache_get db (entry_key env tn tl timeout mc e) = some "") :
    processEntry env tn tl timeout mc now db e = processMiss env tn tl timeout mc now db e := by
  simp [processEntry, h1, h2]

-- ## Seen-set facts for the re-run argument

theorem seen_mono_miss (env : Env) (tn tl : String) (timeout mc : Nat) (now : String) (db : DB) (e : Entry)
    (x : String) (h : is_seen db x = true) :
    is_seen (processMiss env tn tl timeout mc now db e).db x = true := by
  show is_seen (mark_seen (cache_put db (entry_key env tn tl timeout mc e) tn tl
      (entry_source env timeout mc e) _ now) (entry_identity env e) now) x = true
  apply is_seen_mark_seen_mono
  rw [is_seen_cache_put]
  exact h

theorem seen_mono_step (env : Env) (tn tl : String) (timeout mc : Nat) (now : String) (db : DB) (e : Entry)
    (x : String) (h : is_seen db x = true) :
    is_seen (processEntry env tn tl timeout mc now db e).db x = true := by
  cases hs : is_seen db (entry_identity env e) with
  | true =>
    rw [pe_skip env tn tl timeout mc now db e hs]
    exact h
  | false =>
    cases hc : cache_get db (entry_key env tn tl timeout mc e) with
    | none =>
      rw [pe_missN env tn tl timeout mc now db e hs hc]
      exact seen_mono_miss env tn tl timeout mc now db e x h
    | some t =>
      by_cases ht : t = ""
      · rw [ht] at hc
        rw [pe_missE env tn tl timeout mc now db e hs hc]
        exact seen_mono_miss env tn tl timeout mc now db e x h
      · rw [pe_hit env tn tl timeout mc now db e t hs hc ht]
        exact is_seen_mark_seen_mono db (entry_identity env e) now x h

theorem step_marks (env : Env) (tn tl : String) (timeout mc : Nat) (now : String) (db : DB) (e : Entry) :
    is_seen (processEntry env tn tl timeout mc now db e).db (entry_identity env e) = true := by
  cases hs : is_seen db (entry_identity env e) with
  | true =>
    rw [pe_skip env tn tl timeout mc now db e hs]
    exact hs
  | false =>
    cases hc : cache_get db (entry_key env tn tl timeout mc e) with
    | none =>
      rw [pe_missN env tn tl timeout mc now db e hs hc]
      exact is_seen_mark_seen_self _ _ _
    | some t =>
      by_cases ht : t = ""
      · rw [ht] at hc
        rw [pe_missE env tn tl timeout mc now db e hs hc]
        exact is_seen_mark_seen_self _ _ _
      · rw [pe_hit env tn tl timeout mc now db e t hs hc ht]
        exact is_seen_mark_seen_self _ _ _

theorem seen_mono_run (env : Env) (tn tl : String) (timeout mc : Nat) (now : String) (x : String) :
    ∀ (es : List Entry) (db : DB), is_seen db x = true →
      is_seen (runFeed env tn tl timeout mc now db es).db x = true
  | [], _, h => h
  | e :: es, db, h =>
    seen_mono_run env tn tl timeout mc now x es
      (processEntry env tn tl timeout mc now db e).db
      (seen_mono_step env tn tl timeout mc now db e x h)

theorem run_marks (env : Env) (tn tl : String) (timeout mc : Nat) (now : String) :
    ∀ (es : List Entry) (db : DB) (e : Entry), e ∈ es →
      is_seen (runFeed env tn tl timeout mc now db es).db (entry_identity env e) = true := by
  intro es
  induction es with
  | nil =>
    intro db e he
    cases he
  | cons a as ih =>
    intro db e he
    rcases List.mem_cons.mp he with rfl | hm
    · exact seen_mono_run env tn tl timeout mc now (entry_identity env e) as
        (processEntry env tn tl timeout mc now db e).db
        (step_marks env tn tl timeout mc now db e)
    · exact ih (processEntry env tn tl timeout mc now db a).db e hm

theorem run_all_seen (env : Env) (tn tl : String) (timeout mc : Nat) (now : String) :
    ∀ (es : List Entry) (db : DB),
      (∀ e, e ∈ es → is_seen db (entry_identity env e) = true) →
      runFeed env tn tl timeout mc now db es = ⟨db, [], []⟩ := by
  intro es
  induction es with
  | nil =>
    intro db _
    rfl
  | cons a as ih =>
    intro db h
    have ha := h a (List.mem_cons_self a as)
    have hi := ih db (fun e he => h e (List.mem_cons_of_mem a he))
    simp only [runFeed, pe_skip env tn tl timeout mc now db a ha, hi, List.nil_append]

-- ## Counting translation calls

theorem transCalls_append (t l : String) :
    ∀ (a b : List Effect), transCalls t l (a ++ b) = transCalls t l a + transCalls t l b := by
  intro a
  induction a with
  | nil =>
    intro b
    simp [transCalls]
  | cons f fs ih =>
    intro b
    cases f with
    | fetched u => simpa [transCalls] using ih b
    | extracted => simpa [transCalls] using ih b
    | translated t2 l2 =>
      rw [List.cons_append]
      show (if t2 = t ∧ l2 = l then 1 else 0) + transCalls t l (fs ++ b)
          = ((if t2 = t ∧ l2 = l then 1 else 0) + transCalls t l fs) + transCalls t l b
      rw [ih b]
      omega

theorem transCalls_fetchPhase (env : Env) (timeout : Nat) (e : Entry) (t l : String) :
    transCalls t l (fetchPhase env timeout e).2 = 0 := by
  unfold fetchPhase
  by_cases hl : e.link = ""
  · simp [hl, transCalls]
  · rw [if_neg hl]
    cases fetch_url env e.link timeout with
    | none => simp [transCalls]
    | some html =>
      by_cases hh : html = ""
      · simp [hh, transCalls]
      · simp [hh, transCalls]

theorem transCalls_single (t tl st : String) :
    transCalls t tl [Effect.translated st tl] = if st = t then 1 else 0 := by
  simp [transCalls]

theorem nonempty_mono_step (env : Env) (tn tl : String) (timeout mc : Nat) (now : String)
    (db : DB) (e : Entry) (k : String) (h : cacheHasNonempty db k) :
    cacheHasNonempty (processEntry env tn tl timeout mc now db e).db k := by
  obtain ⟨v, hv, hvne⟩ := h
  have hmiss : cache_get db (entry_key env tn tl timeout mc e) = none ∨
      cache_get db (entry_key env tn tl timeout mc e) = some "" →
      cacheHasNonempty (processMiss env tn tl timeout mc now db e).db k := by
    intro hc
    by_cases hk : k = entry_key env tn tl timeout mc e
    · exfalso
      rw [hk] at hv
      rcases hc with hc | hc
      · rw [hv] at hc
        cases hc
      · rw [hv] at hc
        exact hvne (Option.some.inj hc)
    · refine ⟨v, ?_, hvne⟩
      show cache_get (mark_seen (cache_put db (entry_key env tn tl timeout mc e) tn tl
          (entry_source env timeout mc e) _ now) (entry_identity env e) now) k = some v
      rw [cache_get_mark_seen, cache_get_put_ne db (entry_key env tn tl timeout mc e) k tn tl
        (entry_source env timeout mc e) _ now hk]
      exact hv
  cases hs : is_seen db (entry_identity env e) with
  | true =>
    rw [pe_skip env tn tl timeout mc now db e hs]
    exact ⟨v, hv, hvne⟩
  | false =>
    cases hc : cache_get db (entry_key env tn tl timeout mc e) with
    | none =>
      rw [pe_missN env tn tl timeout mc now db e hs hc]
      exact hmiss (Or.inl hc)
    | some tv =>
      by_cases ht : tv = ""
      · rw [ht] at hc
        rw [pe_missE env tn tl timeout mc now db e hs hc]
        exact hmiss (Or.inr hc)
      · rw [pe_hit env tn tl timeout mc now db e tv hs hc ht]
        refine ⟨v, ?_, hvne⟩
        show cache_get (mark_seen db (entry_identity env e) now) k = some v
        rw [cache_get_mark_seen]
        exact hv

theorem entry_key_eq (env : Env) (tn tl : String) (timeout mc : Nat) (e : Entry) (t : String)
    (hst : entry_source env timeout mc e = t) :
    entry_key env tn tl timeout mc e = cache_key env.hash tn tl t := by
  unfold entry_key
  rw [hst]

theorem calls_zero_step (env : Env) (tn tl : String) (timeout mc : Nat) (now : String)
    (db : DB) (e : Entry) (t : String)
    (h : cacheHasNonempty db (cache_key env.hash tn tl t)) :
    transCalls t tl (processEntry env tn tl timeout mc now db e).fx = 0 := by
  obtain ⟨v, hv, hvne⟩ := h
  have hmiss : transCalls t tl (processMiss env tn tl timeout mc now db e).fx
      = if entry_source env timeout mc e = t then 1 else 0 := by
    show transCalls t tl ((fetchPhase env timeout e).2
        ++ [Effect.translated (entry_source env timeout mc e) tl])
      = if entry_source env timeout mc e = t then 1 else 0
    rw [transCalls_append, transCalls_fetchPhase, transCalls_single, Nat.zero_add]
  cases hs : is_seen db (entry_identity env e) with
  | true =>
    rw [pe_skip env tn tl timeout mc now db e hs]
    rfl
  | false =>
    cases hc : cache_get db (entry_key env tn tl timeout mc e) with
    | none =>
      rw [pe_missN env tn tl timeout mc now db e hs hc, hmiss]
      by_cases hst : entry_source env timeout mc e = t
      · exfalso
        rw [entry_key_eq env tn tl timeout mc e t hst] at hc
        rw [hv] at hc
        cases hc
      · rw [if_neg hst]
    | some tv =>
      by_cases ht : tv = ""
      · rw [ht] at hc
        rw [pe_missE env tn tl timeout mc now db e hs hc, hmiss]
        by_cases hst : entry_source env timeout mc e = t
        · exfalso
          rw [entry_key_eq env tn tl timeout mc e t hst] at hc
          rw [hv] at hc
          exact hvne (Option.some.inj hc)
        · rw [if_neg hst]
      · rw [pe_hit env tn tl timeout mc now db e tv hs hc ht]
        exact transCalls_fetchPhase env timeout e t tl

theorem calls_cases_step (env : Env) (tn tl : String) (timeout mc : Nat) (now : String)
    (db : DB) (e : Entry) (t : String) (ht : t ≠ "") :
    transCalls t tl (processEntry env tn tl timeout mc now db e).fx = 0 ∨
      (transCalls t tl (processEntry env tn tl timeout mc now db e).fx = 1 ∧
        cacheHasNonempty (processEntry env tn tl timeout mc now db e).db
          (cache_key env.hash tn tl t)) := by
  have hmiss : transCalls t tl (processMiss env tn tl timeout mc now db e).fx
      = if entry_source env timeout mc e = t then 1 else 0 := by
    show transCalls t tl ((fetchPhase env timeout e).2
        ++ [Effect.translated (entry_source env timeout mc e) tl])
      = if entry_source env timeout mc e = t then 1 else 0
    rw [transCalls_append, transCalls_fetchPhase, transCalls_single, Nat.zero_add]
  have hmissInv : entry_source env timeout mc e = t →
      cacheHasNonempty (processMiss env tn tl timeout mc now db e).db
        (cache_key env.hash tn tl t) := by
    intro hst
    refine ⟨if env.translate (entry_source env timeout mc e) tl = ""
            then entry_source env timeout mc e
            else env.translate (entry_source env timeout mc e) tl, ?_, ?_⟩
    · show cache_get (mark_seen (cache_put db (entry_key env tn tl timeout mc e) tn tl
          (entry_source env timeout mc e) _ now) (entry_identity env e) now)
          (cache_key env.hash tn tl t) = _
      rw [cache_get_mark_seen, ← entry_key_eq env tn tl timeout mc e t hst]
      exact cache_get_put_self db (entry_key env tn tl timeout mc e) tn tl
        (entry_source env timeout mc e) _ now
    · by_cases h0 : env.translate (entry_source env timeout mc e) tl = ""
      · rw [if_pos h0, hst]
        exact ht
      · rw [if_neg h0]
        exact h0
  cases hs : is_seen db (entry_identity env e) with
  | true =>
    left
    rw [pe_skip env tn tl timeout mc now db e hs]
    rfl
  | false =>
    cases hc : cache_get db (entry_key env tn tl timeout mc e) with
    | none =>
      rw [pe_missN env tn tl timeout mc now db e hs hc]
      by_cases hst : entry_source env timeout mc e = t
      · right
        exact ⟨by rw [hmiss, if_pos hst], hmissInv hst⟩
      · left
        rw [hmiss, if_neg hst]
    | some tv =>
      by_cases htv : tv = ""
      · rw [htv] at hc
        rw [pe_missE env tn tl timeout mc now db e hs hc]
        by_cases hst : entry_source env timeout mc e = t
        · right
          exact ⟨by rw [hmiss, if_pos hst], hmissInv hst⟩
        · left
          rw [hmiss, if_neg hst]
      · left
        rw [pe_hit env tn tl timeout mc now db e tv hs hc htv]
        exact transCalls_fetchPhase env timeout e t tl

theorem nonempty_mono_run (env : Env) (tn tl : String) (timeout mc : Nat) (now : String) (k : String) :
    ∀ (es : List Entry) (db : DB), cacheHasNonempty db k →
      cacheHasNonempty (runFeed env tn tl timeout mc now db es).db k
  | [], _, h => h
  | e :: es, db, h =>
    nonempty_mono_run env tn tl timeout mc now k es
      (processEntry env tn tl timeout mc now db e).db
      (nonempty_mono_step env tn tl timeout mc now db e k h)

theorem calls_zero_run (env : Env) (tn tl : String) (timeout mc : Nat) (now : String) (t : String) :
    ∀ (es : List Entry) (db : DB),
      cacheHasNonempty db (cache_key env.hash tn tl t) →
      transCalls t tl (runFeed env tn tl timeout mc now db es).fx = 0 := by
  intro es
  induction es with
  | nil =>
    intro db _
    rfl
  | cons e es ih =>
    intro db h
    show transCalls t tl ((processEntry env tn tl timeout mc now db e).fx
        ++ (runFeed env tn tl timeout mc now (processEntry env tn tl timeout mc now db e).db es).fx)
      = 0
    rw [transCalls_append, calls_zero_step env tn tl timeout mc now db e t h,
      ih (processEntry env tn tl timeout mc now db e).db
        (nonempty_mono_step env tn tl timeout mc now db e _ h)]

theorem calls_le_one_run (env : Env) (tn tl : String) (timeout mc : Nat) (now : String)
    (t : String) (ht : t ≠ "") :
    ∀ (es : List Entry) (db : DB),
      transCalls t tl (runFeed env tn tl timeout mc now db es).fx ≤ 1 := by
  intro es
  induction es with
  | nil =>
    intro db
    show transCalls t tl [] ≤ 1
    simp [transCalls]
  | cons e es ih =>
    intro db
    show transCalls t tl ((processEntry env tn tl timeout mc now db e).fx
        ++ (runFeed env tn tl timeout mc now (processEntry env tn tl timeout mc now db e).db es).fx)
      ≤ 1
    rw [transCalls_append]
    rcases calls_cases_step env tn tl timeout mc now db e t ht with h0 | ⟨h1, hinv⟩
    · rw [h0, Nat.zero_add]
      exact ih (processEntry env tn tl timeout mc now db e).db
    · rw [h1, calls_zero_run env tn tl timeout mc now t es
        (processEntry env tn tl timeout mc now db e).db hinv]

-- ## Claim theorems

/-- Claim C1: re-running the per-feed pipeline a second time over the
same entries, with the same external environment, over the store left by
the first run, produces no new output items, performs no fetch, no
extraction and no translation call (the effect trace is empty), and
leaves the store unchanged: every identity was marked seen by the first
run, so the seen-check skips each entry before any work. -/
theorem C1_rerun_idempotent (env : Env) (tn tl : String) (timeout mc : Nat)
    (now1 now2 : String) (db : DB) (entries : List Entry) :
    runFeed env tn tl timeout mc now2
        (runFeed env tn tl timeout mc now1 db entries).db entries
      = ⟨(runFeed env tn tl timeout mc now1 db entries).db, [], []⟩ :=
  run_all_seen env tn tl timeout mc now2 entries
    (runFeed env tn tl timeout mc now1 db entries).db
    (fun e he => run_marks env tn tl timeout mc now1 entries db e he)

/-- Claim C2: the cache key is the hash of backend ++ ":" ++ lang ++ ":"
++ text, exactly as main computes it for every entry; it is a pure
function, so equal components give equal keys, and under injectivity of
the hash (the spec posits a collision-resistant digest; sha1 itself is
external library code) two distinct target languages give distinct keys
for the same backend and text. -/
theorem C2_cache_key_det (h : String → String) (b t l1 l2 : String) :
    (∀ b2 l t2, b = b2 → l1 = l → t = t2 → cache_key h b l1 t = cache_key h b2 l t2) ∧
    (Function.Injective h → l1 ≠ l2 → cache_key h b l1 t ≠ cache_key h b l2 t) ∧
    (∀ (env : Env) (tn tl : String) (timeout mc : Nat) (e : Entry),
        entry_key env tn tl timeout mc e
          = cache_key env.hash tn tl (entry_source env timeout mc e)) := by
  refine ⟨?_, ?_, ?_⟩
  · intro b2 l t2 hb hl htt
    rw [hb, hl, htt]
  · intro hinj hne heq
    exact hne (key_preimage_lang_inj b t l1 l2 (hinj heq))
  · intro env tn tl timeout mc e
    rfl

theorem C2_cache_key_det_witness :
    cache_key (fun s => s) "openai" "en" "hola" = cache_key (fun s => s) "openai" "en" "hola" ∧
    cache_key (fun s => s) "openai" "en" "hola" ≠ cache_key (fun s => s) "openai" "fr" "hola" :=
  ⟨(C2_cache_key_det (fun s => s) "openai" "hola" "en" "fr").1 "openai" "en" "hola" rfl rfl rfl,
   (C2_cache_key_det (fun s => s) "openai" "hola" "en" "fr").2.1 (fun a b hab => hab) (by decide)⟩

/-- Claim C3 (amended): truncate_for_translation strips first; a text
whose stripped form fits within max_chars is returned stripped; a longer
one becomes head slice of the stripped text, the divider (which includes
two blank lines around the marker), and tail slice of the stripped text,
and whenever the tail budget 3 * max_chars / 10 is at least 1 the result
length is at most max_chars plus the divider length. The slices are of
the stripped text, not of the raw input, and the fit test is on the
stripped length. -/
theorem C3_truncation (text : String) (m : Nat) :
    ((pystrip text).length ≤ m → truncate_for_translation text m = pystrip text) ∧
    (m < (pystrip text).length → 1 ≤ 3 * m / 10 →
        truncate_for_translation text m
          = pytake (7 * m / 10) (pystrip text) ++ TRUNC_DIVIDER
              ++ pytail (3 * m / 10) (pystrip text) ∧
        (truncate_for_translation text m).length ≤ m + TRUNC_DIVIDER.length) := by
  constructor
  · intro h
    simp [truncate_for_translation, h]
  · intro hm hk
    have hnle : ¬ (pystrip text).length ≤ m := not_le.mpr hm
    have heq : truncate_for_translation text m
        = pytake (7 * m / 10) (pystrip text) ++ TRUNC_DIVIDER
            ++ pytail (3 * m / 10) (pystrip text) := by
      simp [truncate_for_translation, hnle]
    refine ⟨heq, ?_⟩
    rw [heq, String.length_append, String.length_append]
    have h7 : 7 * m / 10 * 10 ≤ 7 * m := Nat.div_mul_le_self _ _
    have h3 : 3 * m / 10 * 10 ≤ 3 * m := Nat.div_mul_le_self _ _
    have hle7 : 7 * m / 10 ≤ (pystrip text).length := by omega
    have hle3 : 3 * m / 10 ≤ (pystrip text).length := by omega
    have l7 : (pytake (7 * m / 10) (pystrip text)).length = 7 * m / 10 :=
      pytake_length _ _ hle7
    have l3 : (pytail (3 * m / 10) (pystrip text)).length = 3 * m / 10 :=
      pytail_length _ _ (by omega) hle3
    have ld : TRUNC_DIVIDER.length = 21 := by decide
    omega

theorem C3_truncation_witness :
    truncate_for_translation "abcdefghijkl" 10
        = pytake (7 * 10 / 10) (pystrip "abcdefghijkl") ++ TRUNC_DIVIDER
            ++ pytail (3 * 10 / 10) (pystrip "abcdefghijkl") ∧
    (truncate_for_translation "abcdefghijkl" 10).length ≤ 10 + TRUNC_DIVIDER.length :=
  (C3_truncation "abcdefghijkl" 10).2 (by decide) (by decide)

theorem C3_cex :
    truncate_for_translation " abcd " 3 = "ab" ++ TRUNC_DIVIDER ++ "abcd" ∧
    pytake (7 * 3 / 10) " abcd " = " a" ∧
    truncate_for_translation " abcd " 3 ≠ " a" ++ "[...TRUNCATED...]" ∧
    ¬ ((truncate_for_translation " abcd " 3).length
        ≤ 3 + ("[...TRUNCATED...]" : String).length) := by
  refine ⟨by decide, by decide, by decide, by decide⟩

/-- Claim C4: when the identity is unseen, the cache misses, and the
backend answers the empty string, the pipeline substitutes the truncated
source text as the translation: the produced item carries it as the
translated component of its description, and the cache record stored
under the entry's key holds it in the translated field. -/
theorem C4_substitution_on_failure (env : Env) (tn tl : String) (timeout mc : Nat)
    (now : String) (db : DB) (e : Entry)
    (h1 : is_seen db (entry_identity env e) = false)
    (h2 : cache_get db (entry_key env tn tl timeout mc e) = none)
    (h3 : env.translate (entry_source env timeout mc e) tl = "") :
    (processEntry env tn tl timeout mc now db e).item
        = some (mkItem env tl e (entry_pub env e) (entry_source env timeout mc e)
            (entry_source env timeout mc e)) ∧
    cache_get (processEntry env tn tl timeout mc now db e).db
        (entry_key env tn tl timeout mc e)
      = some (entry_source env timeout mc e) := by
  rw [pe_missN env tn tl timeout mc now db e h1 h2]
  constructor
  · show some (mkItem env tl e (entry_pub env e) (entry_source env timeout mc e)
        (if env.translate (entry_source env timeout mc e) tl = ""
         then entry_source env timeout mc e
         else env.translate (entry_source env timeout mc e) tl)) = _
    rw [if_pos h3]
  · show cache_get (mark_seen (cache_put db (entry_key env tn tl timeout mc e) tn tl
        (entry_source env timeout mc e) _ now) (entry_identity env e) now)
        (entry_key env tn tl timeout mc e) = _
    rw [cache_get_mark_seen, cache_get_put_self, if_pos h3]

theorem C4_substitution_on_failure_witness :
    (processEntry envW "openai" "en" 20 12000 "now" dbEmpty eW).item
        = some (mkItem envW "en" eW (entry_pub envW eW) (entry_source envW 20 12000 eW)
            (entry_source envW 20 12000 eW)) ∧
    cache_get (processEntry envW "openai" "en" 20 12000 "now" dbEmpty eW).db
        (entry_key envW "openai" "en" 20 12000 eW)
      = some (entry_source envW 20 12000 eW) :=
  C4_substitution_on_failure envW "openai" "en" 20 12000 "now" dbEmpty eW
    (by decide) (by decide) (by decide)

/-- Claim C5 (amended): the identity is the hash of the plain
concatenation id ++ link ++ title, so it is stable (equal fields give
equal identities), and two entries get distinct identities when their
concatenations differ and the hash is injective; but distinct triples
whose concatenations coincide collide, so distinctness of the triple
alone does not guarantee distinct identities. -/
theorem C5_identity (env : Env) (e1 e2 : Entry) :
    (e1.id = e2.id → e1.link = e2.link → e1.title = e2.title →
        entry_identity env e1 = entry_identity env e2) ∧
    (Function.Injective env.hash →
        e1.id ++ e1.link ++ e1.title ≠ e2.id ++ e2.link ++ e2.title →
        entry_identity env e1 ≠ entry_identity env e2) := by
  constructor
  · intro h1 h2 h3
    unfold entry_identity
    rw [h1, h2, h3]
  · intro hinj hne heq
    exact hne (hinj heq)

theorem C5_identity_witness :
    entry_identity envW eW = entry_identity envW eW ∧
    entry_identity envW eW ≠ entry_identity envW eW2 :=
  ⟨(C5_identity envW eW eW).1 rfl rfl rfl,
   (C5_identity envW eW eW2).2 (fun a b hab => hab) (by decide)⟩

theorem C5_cex :
    entry_identity envW eColl1 = entry_identity envW eColl2 ∧
    eColl1.id ≠ eColl2.id ∧ eColl1.title = eColl2.title := by
  refine ⟨rfl, by decide, rfl⟩

/-- Claim C6 (amended): for a non-empty source text, at most one
translation-backend call is ever issued for the (backend, lang, text)
triple over any entry sequence and starting store, and once the cache
holds a non-empty translation under the triple's key no further call for
that text occurs; the restriction to non-empty text is forced because a
stored empty-string substitution is falsy and is re-fetched (claim C10,
counterexample below). -/
theorem C6_at_most_one_call (env : Env) (tn tl : String) (timeout mc : Nat) (now : String)
    (db : DB) (es : List Entry) (t : String) (ht : t ≠ "") :
    transCalls t tl (runFeed env tn tl timeout mc now db es).fx ≤ 1 ∧
    (cacheHasNonempty db (cache_key env.hash tn tl t) →
      transCalls t tl (runFeed env tn tl timeout mc now db es).fx = 0) :=
  ⟨calls_le_one_run env tn tl timeout mc now t ht es db,
   fun h => calls_zero_run env tn tl timeout mc now t es db h⟩

theorem C6_at_most_one_call_witness :
    transCalls "hola" "en" (runFeed envW "openai" "en" 20 12000 "now" dbEmpty [eW, eW2]).fx ≤ 1 :=
  (C6_at_most_one_call envW "openai" "en" 20 12000 "now" dbEmpty [eW, eW2] "hola"
    (by decide)).1

theorem C6_cex :
    transCalls "" "en" (runFeed envW "openai" "en" 20 12000 "now" dbEmpty [eEmpty1, eEmpty2]).fx = 2 ∧
    ¬ (transCalls "" "en"
        (runFeed envW "openai" "en" 20 12000 "now" dbEmpty [eEmpty1, eEmpty2]).fx ≤ 1) := by
  refine ⟨by decide, by decide⟩

/-- Claim C7: fetch_url is total with the contract of the spec: absence
on a transport error and on any status at or above 400, the body on
success; and when the fetch yields absence the orchestrator degrades to
the entry's own summary text (lightly stripped) as the translation
source. -/
theorem C7_fetch_totality (env : Env) (url : String) (timeout mc : Nat) (e : Entry) :
    (env.http url = HttpOutcome.err → fetch_url env url timeout = none) ∧
    (∀ status body, env.http url = HttpOutcome.ok status body → 400 ≤ status →
        fetch_url env url timeout = none) ∧
    (∀ status body, env.http url = HttpOutcome.ok status body → status < 400 →
        fetch_url env url timeout = some body) ∧
    (fetch_url env e.link timeout = none →
        entry_source env timeout mc e
          = truncate_for_translation (env.stripHtml (raw_summary e)) mc) := by
  refine ⟨?_, ?_, ?_, ?_⟩
  · intro h
    simp [fetch_url, h]
  · intro status body h hge
    simp [fetch_url, h, hge]
  · intro status body h hlt
    simp [fetch_url, h, Nat.not_le.mpr hlt]
  · intro h
    have h0 : ¬ 400 ≤ (pystrip "").length := by decide
    unfold entry_source fetchPhase
    by_cases hl : e.link = ""
    · simp [hl, h0]
    · simp [hl, h, h0]

theorem C7_fetch_totality_witness :
    fetch_url envW "http://x" 20 = none ∧
    entry_source envW 20 12000 eW
      = truncate_for_translation (envW.stripHtml (raw_summary eW)) 12000 :=
  ⟨(C7_fetch_totality envW "http://x" 20 12000 eW).1 rfl,
   (C7_fetch_totality envW "http://x" 20 12000 eW).2.2.2 rfl⟩

/-- Claim C8 (amended): the original-language snippet embedded in the
item description is the source text itself when that text has at most
600 characters, and otherwise its first 600 characters followed by the
three-character ellipsis, hence exactly 603 characters; its length is
therefore bounded by 603, not 600. -/
theorem C8_snippet_bound (s : String) :
    (orig_snip s).length ≤ 603 ∧
    (s.length ≤ 600 → orig_snip s = s) ∧
    (600 < s.length → (orig_snip s).length = 603) := by
  by_cases h : 600 < s.length
  · have hl : (orig_snip s).length = 603 := by
      unfold orig_snip
      rw [if_pos h, String.length_append, pytake_length 600 s (by omega)]
      decide
    exact ⟨by omega, fun hle => absurd h (by omega), fun _ => hl⟩
  · have he : orig_snip s = s := by
      unfold orig_snip
      rw [if_neg h]
    have hle := Nat.not_lt.mp h
    exact ⟨by rw [he]; omega, fun _ => he, fun hgt => absurd hgt h⟩

theorem C8_snippet_bound_witness : orig_snip "abc" = "abc" :=
  (C8_snippet_bound "abc").2.1 (by decide)

theorem C8_cex :
    (orig_snip (entry_source envW 20 12000 eLong)).length = 603 ∧
    ¬ ((orig_snip (entry_source envW 20 12000 eLong)).length ≤ 600) := by
  refine ⟨by decide, by decide⟩

theorem foldl_append_flatMap {α β : Type} (f : α → List β) :
    ∀ (l : List α) (init : List β),
      List.foldl (fun acc x => acc ++ f x) init l = init ++ l.flatMap f := by
  intro l
  induction l with
  | nil =>
    intro init
    simp
  | cons x xs ih =>
    intro init
    rw [List.foldl_cons, ih (init ++ f x), List.flatMap_cons, List.append_assoc]

/-- Claim C9: the assembled document for the channel title main passes
(feed title, the literal translated marker, and the target language) is
exactly the header lines (escaped title and description, empty link,
timestamp), one escaped item block per OutputItem in input order, and
the closing line, joined by newlines; each block escapes title, link,
guid and pubDate through esc and embeds the description unescaped
inside the CDATA enclosure, as the item_lines and rss_header shapes
state. -/
theorem C9_assembler (now ft tl : String) (items : List OutputItem) :
    build_rss now (ft ++ " (Translated → " ++ tl ++ ")") items
      = String.intercalate "\n"
          (rss_header now (ft ++ " (Translated → " ++ tl ++ ")")
            ++ items.flatMap item_lines ++ ["</channel></rss>"]) := by
  unfold build_rss
  rw [foldl_append_flatMap item_lines items
    (rss_header now (ft ++ " (Translated → " ++ tl ++ ")")), List.append_assoc]

/-- Claim C10: for an unseen entry, a cached empty-string translation is
treated exactly like a miss: the backend is called again for the
truncated source text and the record under the same key is overwritten
with the fresh result (or the substituted source text), while a cached
non-empty translation short-circuits: no translation effect and an
unchanged record. -/
theorem C10_empty_cache_is_miss (env : Env) (tn tl : String) (timeout mc : Nat)
    (now : String) (db : DB) (e : Entry)
    (h1 : is_seen db (entry_identity env e) = false) :
    (cache_get db (entry_key env tn tl timeout mc e) = some "" →
        (processEntry env tn tl timeout mc now db e).fx
          = (fetchPhase env timeout e).2
              ++ [Effect.translated (entry_source env timeout mc e) tl] ∧
        cache_get (processEntry env tn tl timeout mc now db e).db
            (entry_key env tn tl timeout mc e)
          = some (if env.translate (entry_source env timeout mc e) tl = ""
                  then entry_source env timeout mc e
                  else env.translate (entry_source env timeout mc e) tl)) ∧
    (∀ v, cache_get db (entry_key env tn tl timeout mc e) = some v → v ≠ "" →
        (processEntry env tn tl timeout mc now db e).fx = (fetchPhase env timeout e).2 ∧
        cache_get (processEntry env tn tl timeout mc now db e).db
            (entry_key env tn tl timeout mc e)
          = some v) := by
  constructor
  · intro h2
    rw [pe_missE env tn tl timeout mc now db e h1 h2]
    constructor
    · rfl
    · show cache_get (mark_seen (cache_put db (entry_key env tn tl timeout mc e) tn tl
          (entry_source env timeout mc e) _ now) (entry_identity env e) now)
          (entry_key env tn tl timeout mc e) = _
      rw [cache_get_mark_seen, cache_get_put_self]
  · intro v h2 hv
    rw [pe_hit env tn tl timeout mc now db e v h1 h2 hv]
    refine ⟨rfl, ?_⟩
    show cache_get (mark_seen db (entry_identity env e) now)
        (entry_key env tn tl timeout mc e) = some v
    rw [cache_get_mark_seen]
    exact h2

theorem C10_empty_cache_is_miss_witness :
    (processEntry envT "openai" "en" 20 12000 "now" db10 eEmpty1).fx
        = (fetchPhase envT 20 eEmpty1).2
            ++ [Effect.translated (entry_source envT 20 12000 eEmpty1) "en"] ∧
    cache_get (processEntry envT "openai" "en" 20 12000 "now" db10 eEmpty1).db
        (entry_key envT "openai" "en" 20 12000 eEmpty1)
      = some (if envT.translate (entry_source envT 20 12000 eEmpty1) "en" = ""
              then entry_source envT 20 12000 eEmpty1
              else envT.translate (entry_source envT 20 12000 eEmpty1) "en") :=
  (C10_empty_cache_is_miss envT "openai" "en" 20 12000 "now" db10 eEmpty1 (by decide)).1
    (by decide)
